import Mathlib

/-!
# Verification of the uAgents network module (`uagents/network.py`)

A shallow embedding of the registry-client logic of `src/python/src/uagents/network.py`:
the Almanac contract client (registration staleness, record queries, batch registration),
the transaction-confirmation poller, and the NameService contract client
(registration transactions, record merging).

External collaborators (the cosmpy ledger gateway, the Identity signer, the
pydantic data types from `uagents.types`, and the constants from `uagents.config`)
are modelled as explicit parameters: query results become environment fields and
the configuration constants become fields of a `Config` record, since their
values are not part of this module.
-/

namespace UAgents

/-- Modelled from the spec: `AgentEndpoint` from `uagents.types` (not part of this
module) is `\x7burl: string, weight: positive integer\x7d`, compared by value for
equality (pydantic model equality is field-wise). -/
structure AgentEndpoint where
  url : String
  weight : Nat
deriving DecidableEq, Repr

/-- The constants imported from `uagents.config` (a module outside this file's
source): their concrete values are opaque to `network.py`, so they are
parameters of the embedding. -/
structure Config where
  averageBlockInterval : Nat
  almanacRegistrationWait : Int
  registrationFee : Nat
  mainnetNameServiceAddr : String
  testnetNameServiceAddr : String

/-- One entry of the `record` list in a `query_records` contract response:
`\x7b"expiry": ..., "record": \x7b"service": \x7b"endpoints": [...], "protocols": [...]\x7d\x7d\x7d`.
The endpoint dictionaries are represented already validated into `AgentEndpoint`
values (the `AgentEndpoint.model_validate` step of `query_agent_record`). -/
structure RecordEntry where
  expiry : Nat
  endpoints : List AgentEndpoint
  protocols : List String
deriving DecidableEq, Repr

/-- The observable on-chain state behind the Almanac contract queries issued by
`network.py`: the `record` list and `height` field of the `query_records`
response for each agent address, and the `state.expiry_height` field of the
`query_contract_state` response. -/
structure AlmanacEnv where
  recordsOf : String → List RecordEntry
  height : Nat
  stateExpiryHeight : Nat

/-- `AlmanacContract.is_registered` (network.py:230-243): truthiness of
`response.get("record")` — a non-empty record list. -/
def is_registered (env : AlmanacEnv) (address : String) : Bool :=
  !(env.recordsOf address).isEmpty

/-- The value returned by `AlmanacContract.query_agent_record` (network.py:275-310).
The Python function's returns are heterogeneous, so the embedding is a sum:
`emptyList` is the bare `return []` (line 292), `fallbackSeconds` is the bare
`return expiry * AVERAGE_BLOCK_INTERVAL` of the contract-state fallback branch
(line 297), and `result` is the 3-tuple return (line 310). -/
inductive QueryAgentRecordResult where
  | emptyList : QueryAgentRecordResult
  | fallbackSeconds (seconds : Nat) : QueryAgentRecordResult
  | result (secondsToExpiry : Int) (endpoints : List AgentEndpoint)
      (protocols : List String) : QueryAgentRecordResult
deriving DecidableEq, Repr

/-- `AlmanacContract.query_agent_record` (network.py:275-310), including both of
the two identical `if not response.get("record")` guards of the source: the
first returns `[]`, the second would query the global contract state. -/
def query_agent_record (cfg : Config) (env : AlmanacEnv) (address : String) :
    QueryAgentRecordResult :=
  let record := env.recordsOf address
  if record.isEmpty then
    .emptyList
  else if record.isEmpty then
    .fallbackSeconds (env.stateExpiryHeight * cfg.averageBlockInterval)
  else
    match record with
    | [] => .emptyList
    | entry :: _ =>
      let secondsToExpiry : Int :=
        ((entry.expiry : Int) - (env.height : Int)) * (cfg.averageBlockInterval : Int)
      .result secondsToExpiry entry.endpoints entry.protocols

/-- `AlmanacContract.registration_needs_update` (network.py:245-273). The Python
body unpacks the value of `query_agent_record` into a 3-tuple; when that value
is the empty list the unpacking raises `ValueError`, so the embedding returns
`Except`. -/
def registration_needs_update (cfg : Config) (env : AlmanacEnv) (address : String)
    (endpoints : List AgentEndpoint) (protocols : List String)
    (min_seconds_left : Int) : Except String Bool :=
  match query_agent_record cfg env address with
  | .emptyList =>
    .error "ValueError: not enough values to unpack (expected 3, got 0)"
  | .fallbackSeconds _ =>
    .error "TypeError: cannot unpack non-iterable int object"
  | .result secondsToExpiry registeredEndpoints registeredProtocols =>
    .ok (!is_registered env address
      || decide (secondsToExpiry < min_seconds_left)
      || decide (endpoints ≠ registeredEndpoints)
      || decide (protocols ≠ registeredProtocols))

/-- `AlmanacContractRecord` (network.py:51-61): an `AgentInfo`
(address/protocols/endpoints, from `uagents.types`) extended with the contract
and sender addresses and the optional signing fields, both defaulting to
`None`. -/
structure AlmanacContractRecord where
  address : String
  protocols : List String
  endpoints : List AgentEndpoint
  contract_address : String
  sender_address : String
  timestamp : Option Int := none
  signature : Option String := none
deriving DecidableEq, Repr

/-- `AlmanacContractRecord.sign` (network.py:57-61). `now` embeds
`int(time.time())` and `sign_registration` embeds the external
`Identity.sign_registration` collaborator (a function of the contract address,
the timestamp and the sender address). -/
def AlmanacContractRecord.sign (r : AlmanacContractRecord) (cfg : Config) (now : Int)
    (sign_registration : String → Int → String → String) : AlmanacContractRecord :=
  let ts := now - cfg.almanacRegistrationWait
  { r with
    timestamp := some ts
    signature := some (sign_registration r.contract_address ts r.sender_address) }

/-- Construction of an `AlmanacContractRecord` with the signing fields left at
their declared defaults (`None`), as the batch-registration callers build them
before calling `sign`. -/
def freshRecord (address : String) (protocols : List String)
    (endpoints : List AgentEndpoint) (contract_address sender_address : String) :
    AlmanacContractRecord :=
  { address := address
    protocols := protocols
    endpoints := endpoints
    contract_address := contract_address
    sender_address := sender_address }

/-- The invariant of claim C7: `timestamp` and `signature` are both set or both
unset. -/
def signedConsistently (r : AlmanacContractRecord) : Prop :=
  r.timestamp.isSome = r.signature.isSome

instance (r : AlmanacContractRecord) : Decidable (signedConsistently r) := by
  unfold signedConsistently
  infer_instance

/-- The payload dictionary built by `AlmanacContract.get_registration_msg`
(network.py:348-368): the nested dict
`\x7b"register": \x7b"record": \x7b"service": \x7bprotocols, endpoints\x7d\x7d, signature, sequence,
agent_address\x7d\x7d` flattened to its five fields. -/
structure AlmanacRegisterMsg where
  protocols : List String
  endpoints : List AgentEndpoint
  signature : String
  sequence : Int
  agent_address : String
deriving DecidableEq, Repr

/-- `AlmanacContract.get_registration_msg` (network.py:348-368). -/
def get_registration_msg (protocols : List String) (endpoints : List AgentEndpoint)
    (signature : String) (sequence : Int) (address : String) : AlmanacRegisterMsg :=
  { protocols := protocols
    endpoints := endpoints
    signature := signature
    sequence := sequence
    agent_address := address }

/-- A CosmWasm execute message as produced by `create_cosmwasm_execute_msg`
(an external cosmpy helper): sender, target contract, payload `msg`, and the
optional attached funds string (`None` when the keyword is omitted). -/
structure CosmWasmExecuteMsg (α : Type) where
  sender : String
  contract : String
  msg : α
  funds : Option String
deriving DecidableEq, Repr

/-- The observable outcome of `AlmanacContract.register_batch`
(network.py:420-468): either an exception is raised before the single
`prepare_and_broadcast_basic_transaction` call, or exactly one transaction
carrying `msgs` is broadcast. -/
inductive BatchOutcome where
  | raised (err : String)
  | broadcast (msgs : List (CosmWasmExecuteMsg AlmanacRegisterMsg))
deriving DecidableEq, Repr

/-- The message-building loop of `register_batch` (network.py:439-462): one
registration message per record in input order, raising on the first record
whose `timestamp` or `signature` is `None`. -/
def batchMsgs (cfg : Config) (walletAddress contractAddress denom : String) :
    List AlmanacContractRecord →
      Except String (List (CosmWasmExecuteMsg AlmanacRegisterMsg))
  | [] => .ok []
  | record :: rest =>
    match record.timestamp with
    | none => .error "Agent record is missing timestamp"
    | some ts =>
      match record.signature with
      | none => .error "Agent record is not signed"
      | some sig =>
        let almanac_msg :=
          get_registration_msg record.protocols record.endpoints sig ts record.address
        let msg : CosmWasmExecuteMsg AlmanacRegisterMsg :=
          { sender := walletAddress
            contract := contractAddress
            msg := almanac_msg
            funds := some (toString cfg.registrationFee ++ denom) }
        (batchMsgs cfg walletAddress contractAddress denom rest).map (msg :: ·)

/-- `AlmanacContract.register_batch` (network.py:420-468). `contractAddress` is
`self.address` (`None` when unset); the broadcast happens only after the whole
message loop has succeeded. -/
def register_batch (cfg : Config) (contractAddress : Option String)
    (walletAddress denom : String) (agent_records : List AlmanacContractRecord) :
    BatchOutcome :=
  match contractAddress with
  | none => .raised "Contract address not set"
  | some caddr =>
    match batchMsgs cfg walletAddress caddr denom agent_records with
    | .error e => .raised e
    | .ok msgs => .broadcast msgs

/-- The registration message `register_batch` builds for one fully signed
record (helper for stating C3; `getD` defaults are only reached on records the
loop would reject). -/
def recordRegistrationMsg (cfg : Config) (walletAddress contractAddress denom : String)
    (record : AlmanacContractRecord) : CosmWasmExecuteMsg AlmanacRegisterMsg :=
  { sender := walletAddress
    contract := contractAddress
    msg := get_registration_msg record.protocols record.endpoints
      (record.signature.getD "") (record.timestamp.getD 0) record.address
    funds := some (toString cfg.registrationFee ++ denom) }

/-- The observable outcome of one `wait_for_tx_to_complete` call
(network.py:124-158): the `TxResponse` returned by a successful `query_tx`
(abstracted to a `Nat` identifier), or the raised `QueryTimeoutError`. -/
inductive PollOutcome where
  | found (response : Nat)
  | queryTimeout
deriving DecidableEq, Repr

/-- The polling loop of `wait_for_tx_to_complete` (network.py:148-158).
`oracle i` is the result of the `query_tx` issued on loop iteration `i`
(`none` embeds the `NotFoundError` branch). Time is idealised: queries are
instantaneous and `asyncio.sleep` sleeps exactly `pollPeriod`, so the elapsed
time `datetime.now() - start` at the timeout check of iteration `i` is
`i * pollPeriod`; the check `delta >= timeout` becomes `timeout ≤ i * pollPeriod`.
`fuel` bounds the iterations the embedding may unfold (`none` = fuel ran out,
the Python loop would keep running). -/
def wait_for_tx_loop (oracle : Nat → Option Nat) (timeout pollPeriod : Nat) :
    Nat → Nat → Option PollOutcome
  | 0, _ => none
  | fuel + 1, i =>
    match oracle i with
    | some resp => some (.found resp)
    | none =>
      if timeout ≤ i * pollPeriod then some .queryTimeout
      else wait_for_tx_loop oracle timeout pollPeriod fuel (i + 1)

/-- `wait_for_tx_to_complete` (network.py:124-158), started at iteration 0. -/
def wait_for_tx_to_complete (oracle : Nat → Option Nat) (timeout pollPeriod fuel : Nat) :
    Option PollOutcome :=
  wait_for_tx_loop oracle timeout pollPeriod fuel 0

/-- `AgentNetwork` from `uagents.types`: the literal type
`"mainnet" | "testnet"`. -/
inductive AgentNetwork where
  | mainnet
  | testnet
deriving DecidableEq, Repr

/-- An agent-record dictionary of the NameService contract:
`\x7b"address": ..., "weight": ...\x7d` (as produced by `parse_record_config`,
network.py:101-121, where `weight` is an integer). -/
structure NSRecord where
  address : String
  weight : Nat
deriving DecidableEq, Repr

/-- A NameService execute payload: the domain-purchase message
`\x7b"register": \x7b"domain": ...\x7d\x7d` or the record-update message
`\x7b"update_record": \x7bdomain, agent_records\x7d\x7d` (network.py:652, 662-667). -/
inductive NameServicePayload where
  | registerDomain (domain : String)
  | updateRecord (domain : String) (agent_records : List NSRecord)
deriving DecidableEq, Repr

/-- The observable on-chain state behind the NameService queries issued by
`get_registration_tx`: the `is_available` field of `query_domain_record` per
domain string, the `permissions` field of the `permissions` query per
(domain, owner), and the `price_per_second` field of `query_contract_state`
(its `amount` already parsed by `int(...)`). -/
structure NameServiceEnv where
  is_available : String → Bool
  permissions : String → String → String
  pricePerSecondAmount : Nat
  pricePerSecondDenom : String

/-- `NameServiceContract.is_name_available` (network.py:545-557). -/
def is_name_available (env : NameServiceEnv) (name domain : String) : Bool :=
  env.is_available (name ++ "." ++ domain)

/-- `NameServiceContract.is_owner` (network.py:559-578). -/
def is_owner (env : NameServiceEnv) (name domain wallet_address : String) : Bool :=
  env.permissions (name ++ "." ++ domain) wallet_address == "admin"

/-- The target contract address selected by `get_registration_tx`
(network.py:639-643). -/
def nsContractAddr (cfg : Config) (network : AgentNetwork) : String :=
  if network = .mainnet then cfg.mainnetNameServiceAddr
  else cfg.testnetNameServiceAddr

/-- `NameServiceContract.get_registration_tx` (network.py:615-673): the list of
messages of the returned transaction, or `none` for the bare `return None`. -/
def get_registration_tx (cfg : Config) (env : NameServiceEnv) (name : String)
    (wallet_address : String) (agent_records : List NSRecord) (domain : String)
    (network : AgentNetwork) : Option (List (CosmWasmExecuteMsg NameServicePayload)) :=
  let contract := nsContractAddr cfg network
  let record_msg : CosmWasmExecuteMsg NameServicePayload :=
    { sender := wallet_address
      contract := contract
      msg := .updateRecord (name ++ "." ++ domain) agent_records
      funds := none }
  if is_name_available env name domain then
    let amount := env.pricePerSecondAmount * 86400
    let denom := env.pricePerSecondDenom
    let purchase : CosmWasmExecuteMsg NameServicePayload :=
      { sender := wallet_address
        contract := contract
        msg := .registerDomain (name ++ "." ++ domain)
        funds := some (toString amount ++ denom) }
    some [purchase, record_msg]
  else if !is_owner env name domain wallet_address then
    none
  else
    some [record_msg]

/-- The dedup key of `NameServiceContract.register` (network.py:731): the
f-string `address_weight`. -/
def recordKey (r : NSRecord) : String :=
  r.address ++ "_" ++ Nat.repr r.weight

/-- One insertion into a Python dict (insertion-ordered): an existing key keeps
its position and takes the new value, a new key is appended. -/
def dictInsert (acc : List (String × NSRecord)) (k : String) (v : NSRecord) :
    List (String × NSRecord) :=
  if acc.any (fun p => p.1 == k) then
    acc.map (fun p => if p.1 == k then (k, v) else p)
  else acc ++ [(k, v)]

/-- The dict comprehension `\x7brecordKey rec: rec for rec in recs\x7d.values()` of
network.py:729-734. -/
def dedupByKey (recs : List NSRecord) : List NSRecord :=
  (recs.foldl (fun acc r => dictInsert acc (recordKey r) r) []).map Prod.snd

/-- The record list `NameServiceContract.register` submits (network.py:727-734):
the parsed records unchanged when `overwrite`, else the key-deduplicated merge
of the previously registered records with the new ones. -/
def mergedRecords (overwrite : Bool) (previous_records records : List NSRecord) :
    List NSRecord :=
  if overwrite then records
  else dedupByKey (previous_records ++ records)

/-- The shape of a Python object returned by the raw `LedgerContract.query`
capability, as far as the `isinstance(response, dict)` check of the
`query_contract` wrappers observes it. -/
inductive PyResponse where
  | dict (entries : List (String × String))
  | pylist (elems : List String)
  | pystr (s : String)
  | pynone
deriving DecidableEq, Repr

/-- `isinstance(response, dict)`. -/
def PyResponse.isDict : PyResponse → Bool
  | .dict _ => true
  | _ => false

/-- `AlmanacContract.query_contract` (network.py:195-216). The argument is the
outcome of `self.query(query_msg)` (`Except.error` embeds a raised exception);
the `except` clause logs and re-raises, so errors pass through unchanged. -/
def AlmanacContract.query_contract (query_result : Except String PyResponse) :
    Except String PyResponse :=
  match query_result with
  | .error e => .error e
  | .ok response =>
    if response.isDict then .ok response
    else .error "ValueError: Invalid response format"

/-- `NameServiceContract.query_contract` (network.py:522-543): the same guard
as the Almanac wrapper (only the logging differs). -/
def NameServiceContract.query_contract (query_result : Except String PyResponse) :
    Except String PyResponse :=
  match query_result with
  | .error e => .error e
  | .ok response =>
    if response.isDict then .ok response
    else .error "ValueError: Invalid response format"

/-- The two module-level `AlmanacContract` singletons (network.py:486-491). -/
inductive AlmanacInstance where
  | mainnetContract
  | testnetContract
deriving DecidableEq, Repr

/-- `get_almanac_contract` (network.py:494-510). The two `check_version()`
results (network round-trips) are passed in as booleans. -/
def get_almanac_contract (network : AgentNetwork)
    (mainnetVersionOk testnetVersionOk : Bool) : Option AlmanacInstance :=
  if network == .mainnet && mainnetVersionOk then some .mainnetContract
  else if testnetVersionOk then some .testnetContract
  else none

/-- A concrete instantiation of the configuration constants, for witnesses. -/
def sampleConfig : Config :=
  { averageBlockInterval := 5
    almanacRegistrationWait := 1800
    registrationFee := 500000
    mainnetNameServiceAddr := "fetchmainns"
    testnetNameServiceAddr := "fetchtestns" }

/-- An Almanac state in which no agent has any record. -/
def emptyAlmanacEnv : AlmanacEnv :=
  { recordsOf := fun _ => []
    height := 100
    stateExpiryHeight := 7 }

/-- An Almanac state in which every agent has one record: expiry block 200,
one endpoint, one protocol (queried at block height 100). -/
def oneRecordEnv : AlmanacEnv :=
  { recordsOf := fun _ => [⟨200, [⟨"http://a", 1⟩], ["proto1"]⟩]
    height := 100
    stateExpiryHeight := 7 }

/-- A fully signed sample record, for witnesses. -/
def signedSampleRecord : AlmanacContractRecord :=
  (freshRecord "agent2" ["proto1"] [⟨"http://b", 1⟩] "almanacaddr" "senderaddr").sign
    sampleConfig 10000 (fun c t s => c ++ ":" ++ toString t ++ ":" ++ s)

/-- A freshly constructed (unsigned) sample record, for witnesses. -/
def unsignedSampleRecord : AlmanacContractRecord :=
  freshRecord "agent1" ["proto1"] [⟨"http://a", 1⟩] "almanacaddr" "senderaddr"

/-- A NameService state in which every domain is available, for witnesses. -/
def availableNSEnv : NameServiceEnv :=
  { is_available := fun _ => true
    permissions := fun _ _ => "none"
    pricePerSecondAmount := 3
    pricePerSecondDenom := "atestfet" }

/-- A NameService state in which every domain is taken and the caller holds
admin permission, for witnesses. -/
def ownedNSEnv : NameServiceEnv :=
  { is_available := fun _ => false
    permissions := fun _ _ => "admin"
    pricePerSecondAmount := 3
    pricePerSecondDenom := "atestfet" }

/-- A NameService state in which every domain is taken by someone else, for
witnesses. -/
def foreignNSEnv : NameServiceEnv :=
  { is_available := fun _ => false
    permissions := fun _ _ => "viewer"
    pricePerSecondAmount := 3
    pricePerSecondDenom := "atestfet" }

/-- C2: when the record query for an address yields an empty or missing record
list, `query_agent_record` is claimed to fall back to the global contract
state's expiry height times the average block interval; on the code, the first
duplicated guard returns the bare empty list instead, the fallback branch is
unreachable for every input, and when a record is present the function returns
`(expiry_block - current_block) * average_block_interval` with the first
entry's endpoint and protocol lists. -/
theorem C2_query_agent_record_fallback_dead :
    (∀ (cfg : Config) (env : AlmanacEnv) (address : String),
      env.recordsOf address = [] →
      query_agent_record cfg env address = .emptyList) ∧
    (∀ (cfg : Config) (env : AlmanacEnv) (address : String) (seconds : Nat),
      query_agent_record cfg env address ≠ .fallbackSeconds seconds) ∧
    (∀ (cfg : Config) (env : AlmanacEnv) (address : String)
      (entry : RecordEntry) (rest : List RecordEntry),
      env.recordsOf address = entry :: rest →
      query_agent_record cfg env address =
        .result (((entry.expiry : Int) - (env.height : Int)) *
            (cfg.averageBlockInterval : Int))
          entry.endpoints entry.protocols) := by
  refine ⟨?_, ?_, ?_⟩
  · intro cfg env address h
    simp [query_agent_record, h]
  · intro cfg env address seconds h
    unfold query_agent_record at h
    rcases hrec : env.recordsOf address with _ | ⟨entry, rest⟩ <;>
      simp [hrec] at h
  · intro cfg env address entry rest h
    simp [query_agent_record, h]

/-- C2 witness: on a state with no record for the agent, the function returns
the empty list (and not the fallback); on a state with one record it returns
the computed triple. -/
theorem C2_witness :
    query_agent_record sampleConfig emptyAlmanacEnv "agent1" = .emptyList ∧
    query_agent_record sampleConfig emptyAlmanacEnv "agent1" ≠
      .fallbackSeconds (7 * 5) ∧
    query_agent_record sampleConfig oneRecordEnv "agent1" =
      .result 500 [⟨"http://a", 1⟩] ["proto1"] :=
  ⟨C2_query_agent_record_fallback_dead.1 sampleConfig emptyAlmanacEnv "agent1" rfl,
   C2_query_agent_record_fallback_dead.2.1 sampleConfig emptyAlmanacEnv "agent1" (7 * 5),
   by
    have h := C2_query_agent_record_fallback_dead.2.2 sampleConfig oneRecordEnv
      "agent1" ⟨200, [⟨"http://a", 1⟩], ["proto1"]⟩ [] rfl
    simpa using h⟩

/-- C1: `registration_needs_update` is claimed to return a boolean, without
raising, for every agent; on the code, an unregistered agent (empty record
list) makes `query_agent_record` return `[]`, whose unpacking into a 3-tuple
raises `ValueError`. For a registered agent the function does return the
claimed disjunction (the not-registered disjunct being false). -/
theorem C1_registration_needs_update :
    (∀ (cfg : Config) (env : AlmanacEnv) (address : String)
      (endpoints : List AgentEndpoint) (protocols : List String)
      (min_seconds_left : Int),
      env.recordsOf address = [] →
      registration_needs_update cfg env address endpoints protocols min_seconds_left =
        .error "ValueError: not enough values to unpack (expected 3, got 0)") ∧
    (∀ (cfg : Config) (env : AlmanacEnv) (address : String)
      (endpoints : List AgentEndpoint) (protocols : List String)
      (min_seconds_left : Int) (entry : RecordEntry) (rest : List RecordEntry),
      env.recordsOf address = entry :: rest →
      registration_needs_update cfg env address endpoints protocols min_seconds_left =
        .ok (decide ((((entry.expiry : Int) - (env.height : Int)) *
              (cfg.averageBlockInterval : Int)) < min_seconds_left)
          || decide (endpoints ≠ entry.endpoints)
          || decide (protocols ≠ entry.protocols))) := by
  constructor
  · intro cfg env address endpoints protocols min_seconds_left h
    rw [registration_needs_update,
      C2_query_agent_record_fallback_dead.1 cfg env address h]
  · intro cfg env address endpoints protocols min_seconds_left entry rest h
    rw [registration_needs_update,
      C2_query_agent_record_fallback_dead.2.2 cfg env address entry rest h]
    simp [is_registered, h]

/-- C1 witness: concrete evaluations — an unregistered agent raises, a
registered agent with fresh matching state yields `False`, and one whose
expiry is below the threshold yields `True`. -/
theorem C1_witness :
    registration_needs_update sampleConfig emptyAlmanacEnv "agent1"
        [⟨"http://a", 1⟩] ["proto1"] 0 =
      .error "ValueError: not enough values to unpack (expected 3, got 0)" ∧
    registration_needs_update sampleConfig oneRecordEnv "agent1"
        [⟨"http://a", 1⟩] ["proto1"] 100 = .ok false ∧
    registration_needs_update sampleConfig oneRecordEnv "agent1"
        [⟨"http://a", 1⟩] ["proto1"] 3600 = .ok true :=
  ⟨C1_registration_needs_update.1 sampleConfig emptyAlmanacEnv "agent1"
      [⟨"http://a", 1⟩] ["proto1"] 0 rfl,
   by
    have h := C1_registration_needs_update.2 sampleConfig oneRecordEnv "agent1"
      [⟨"http://a", 1⟩] ["proto1"] 100 ⟨200, [⟨"http://a", 1⟩], ["proto1"]⟩ [] rfl
    simpa using h,
   by
    have h := C1_registration_needs_update.2 sampleConfig oneRecordEnv "agent1"
      [⟨"http://a", 1⟩] ["proto1"] 3600 ⟨200, [⟨"http://a", 1⟩], ["proto1"]⟩ [] rfl
    simpa using h⟩

/-- C7: `timestamp` and `signature` are both set or both unset: a freshly
constructed record has both `none`, and `sign` unconditionally sets both —
the timestamp to the current time minus the registration-wait offset and the
signature to the identity's signature over the contract address, that
timestamp, and the sender address — so neither of the two operations on a
record produces a partially signed one. -/
theorem C7_sign_both_or_neither :
    (∀ (address : String) (protocols : List String) (endpoints : List AgentEndpoint)
      (contract_address sender_address : String),
      (freshRecord address protocols endpoints contract_address sender_address).timestamp
          = none ∧
      (freshRecord address protocols endpoints contract_address sender_address).signature
          = none ∧
      signedConsistently
        (freshRecord address protocols endpoints contract_address sender_address)) ∧
    (∀ (r : AlmanacContractRecord) (cfg : Config) (now : Int)
      (sign_registration : String → Int → String → String),
      (r.sign cfg now sign_registration).timestamp =
        some (now - cfg.almanacRegistrationWait) ∧
      (r.sign cfg now sign_registration).signature =
        some (sign_registration r.contract_address
          (now - cfg.almanacRegistrationWait) r.sender_address) ∧
      signedConsistently (r.sign cfg now sign_registration)) := by
  constructor
  · intro address protocols endpoints contract_address sender_address
    exact ⟨rfl, rfl, rfl⟩
  · intro r cfg now sign_registration
    exact ⟨rfl, rfl, rfl⟩

/-- C9: both contract-client query wrappers return a mapping response
unchanged, raise on every non-mapping response (never coercing it), and let an
exception of the underlying query propagate unchanged. -/
theorem C9_query_contract_dict_guard :
    ∀ q : Except String PyResponse,
      ((∃ d, q = .ok (PyResponse.dict d)) →
        AlmanacContract.query_contract q = q ∧
        NameServiceContract.query_contract q = q) ∧
      (∀ r : PyResponse, q = .ok r → r.isDict = false →
        AlmanacContract.query_contract q =
          .error "ValueError: Invalid response format" ∧
        NameServiceContract.query_contract q =
          .error "ValueError: Invalid response format") ∧
      (∀ e : String, q = .error e →
        AlmanacContract.query_contract q = .error e ∧
        NameServiceContract.query_contract q = .error e) := by
  intro q
  refine ⟨?_, ?_, ?_⟩
  · rintro ⟨d, rfl⟩
    exact ⟨rfl, rfl⟩
  · rintro r rfl hr
    constructor <;>
      simp [AlmanacContract.query_contract, NameServiceContract.query_contract, hr]
  · rintro e rfl
    exact ⟨rfl, rfl⟩

/-- C9 witness: a dict response passes through both wrappers unchanged, a
string response makes both raise, and an underlying error re-raises. -/
theorem C9_witness :
    (AlmanacContract.query_contract (.ok (.dict [("record", "r")])) =
        .ok (.dict [("record", "r")]) ∧
      NameServiceContract.query_contract (.ok (.dict [("record", "r")])) =
        .ok (.dict [("record", "r")])) ∧
    (AlmanacContract.query_contract (.ok (.pystr "oops")) =
        .error "ValueError: Invalid response format" ∧
      NameServiceContract.query_contract (.ok (.pystr "oops")) =
        .error "ValueError: Invalid response format") ∧
    (AlmanacContract.query_contract (.error "NotFoundError") =
        .error "NotFoundError" ∧
      NameServiceContract.query_contract (.error "NotFoundError") =
        .error "NotFoundError") :=
  ⟨(C9_query_contract_dict_guard (.ok (.dict [("record", "r")]))).1
      ⟨[("record", "r")], rfl⟩,
   (C9_query_contract_dict_guard (.ok (.pystr "oops"))).2.1 (.pystr "oops") rfl rfl,
   (C9_query_contract_dict_guard (.error "NotFoundError")).2.2 "NotFoundError" rfl⟩

/-- C10: a caller requesting the mainnet Almanac contract silently receives the
testnet instance whenever the mainnet version check fails and the testnet one
passes, and receives nothing only when both checks fail. -/
theorem C10_get_almanac_contract_testnet_fallback :
    get_almanac_contract .mainnet false true = some .testnetContract ∧
    (∀ m t : Bool,
      get_almanac_contract .mainnet m t = none ↔ m = false ∧ t = false) := by
  constructor
  · rfl
  · decide

theorem batchMsgs_error_of_missing (cfg : Config) (wallet caddr denom : String) :
    ∀ records : List AlmanacContractRecord,
      (∃ r ∈ records, r.timestamp = none ∨ r.signature = none) →
      ∃ e, batchMsgs cfg wallet caddr denom records = .error e := by
  intro records
  induction records with
  | nil => rintro ⟨r, hr, -⟩; cases hr
  | cons head tail ih =>
    rintro ⟨r, hr, hmiss⟩
    cases hts : head.timestamp with
    | none => exact ⟨"Agent record is missing timestamp", by simp [batchMsgs, hts]⟩
    | some ts =>
      cases hsig : head.signature with
      | none => exact ⟨"Agent record is not signed", by simp [batchMsgs, hts, hsig]⟩
      | some sig =>
        have hrtail : r ∈ tail := by
          rcases List.mem_cons.mp hr with rfl | h
          · rcases hmiss with h | h
            · rw [hts] at h; cases h
            · rw [hsig] at h; cases h
          · exact h
        obtain ⟨e, he⟩ := ih ⟨r, hrtail, hmiss⟩
        exact ⟨e, by simp [batchMsgs, hts, hsig, he, Except.map]⟩

theorem batchMsgs_ok_of_signed (cfg : Config) (wallet caddr denom : String) :
    ∀ records : List AlmanacContractRecord,
      (∀ r ∈ records, r.timestamp ≠ none ∧ r.signature ≠ none) →
      batchMsgs cfg wallet caddr denom records =
        .ok (records.map (recordRegistrationMsg cfg wallet caddr denom)) := by
  intro records
  induction records with
  | nil => intro; rfl
  | cons head tail ih =>
    intro h
    obtain ⟨hts', hsig'⟩ := h head (List.mem_cons_self head tail)
    cases hts : head.timestamp with
    | none => exact absurd hts hts'
    | some ts =>
      cases hsig : head.signature with
      | none => exact absurd hsig hsig'
      | some sig =>
        have htail := ih fun r hr => h r (List.mem_cons_of_mem head hr)
        simp [batchMsgs, hts, hsig, htail, recordRegistrationMsg, Except.map]

/-- C3: `register_batch` fails before the (single, final) broadcast whenever
any record lacks a timestamp or signature — no partial batch is ever
broadcast — and when all records carry both fields it broadcasts exactly one
transaction with one registration message per record, in input order. -/
theorem C3_register_batch_all_or_nothing :
    (∀ (cfg : Config) (caddr wallet denom : String)
      (records : List AlmanacContractRecord),
      (∃ r ∈ records, r.timestamp = none ∨ r.signature = none) →
      ∃ err, register_batch cfg (some caddr) wallet denom records = .raised err) ∧
    (∀ (cfg : Config) (caddr wallet denom : String)
      (records : List AlmanacContractRecord),
      (∀ r ∈ records, r.timestamp ≠ none ∧ r.signature ≠ none) →
      register_batch cfg (some caddr) wallet denom records =
        .broadcast (records.map (recordRegistrationMsg cfg wallet caddr denom))) := by
  constructor
  · intro cfg caddr wallet denom records hmiss
    obtain ⟨e, he⟩ := batchMsgs_error_of_missing cfg wallet caddr denom records hmiss
    exact ⟨e, by simp [register_batch, he]⟩
  · intro cfg caddr wallet denom records hall
    simp [register_batch, batchMsgs_ok_of_signed cfg wallet caddr denom records hall]

/-- C3 witness: a batch containing an unsigned record is raised away before
broadcast; a batch of one signed record broadcasts exactly its message. -/
theorem C3_witness :
    (∃ err, register_batch sampleConfig (some "almanacaddr") "wallet" "atestfet"
        [signedSampleRecord, unsignedSampleRecord] = .raised err) ∧
    register_batch sampleConfig (some "almanacaddr") "wallet" "atestfet"
        [signedSampleRecord] =
      .broadcast [recordRegistrationMsg sampleConfig "wallet" "almanacaddr" "atestfet"
        signedSampleRecord] :=
  ⟨C3_register_batch_all_or_nothing.1 sampleConfig "almanacaddr" "wallet" "atestfet"
      [signedSampleRecord, unsignedSampleRecord]
      ⟨unsignedSampleRecord,
        List.mem_cons_of_mem _ (List.mem_cons_self _ _), Or.inl rfl⟩,
   C3_register_batch_all_or_nothing.2 sampleConfig "almanacaddr" "wallet" "atestfet"
      [signedSampleRecord] (by decide)⟩

theorem wait_loop_found_after (oracle : Nat → Option Nat) (timeout poll r : Nat) :
    ∀ (k i fuel : Nat), (∀ j, j < k → oracle (i + j) = none) →
      oracle (i + k) = some r → (i + k) * poll < timeout → k + 1 ≤ fuel →
      wait_for_tx_loop oracle timeout poll fuel i = some (.found r) := by
  intro k
  induction k with
  | zero =>
    intro i fuel _ hk _ hfuel
    match fuel, hfuel with
    | fuel + 1, _ =>
      have hi : oracle i = some r := by simpa using hk
      simp [wait_for_tx_loop, hi]
  | succ k ih =>
    intro i fuel h0 hk hlt hfuel
    match fuel, hfuel with
    | fuel + 1, hfuel =>
      have hnone : oracle i = none := by simpa using h0 0 (Nat.succ_pos k)
      have hile : i * poll < timeout :=
        lt_of_le_of_lt (Nat.mul_le_mul_right poll (Nat.le_add_right i (k + 1))) hlt
      rw [wait_for_tx_loop]
      simp only [hnone]
      rw [if_neg (Nat.not_le.mpr hile)]
      apply ih (i + 1) fuel
      · intro j hj
        have := h0 (j + 1) (Nat.succ_lt_succ hj)
        simpa [Nat.add_comm, Nat.add_assoc, Nat.add_left_comm] using this
      · have : i + 1 + k = i + (k + 1) := by omega
        rw [this]; exact hk
      · have : i + 1 + k = i + (k + 1) := by omega
        rw [this]; exact hlt
      · omega

theorem wait_loop_timeout_all_none (oracle : Nat → Option Nat) (timeout poll : Nat)
    (hall : ∀ j, oracle j = none) :
    ∀ (f i : Nat), timeout ≤ i * poll + f * poll →
      wait_for_tx_loop oracle timeout poll (f + 1) i = some .queryTimeout := by
  intro f
  induction f with
  | zero =>
    intro i hle
    rw [wait_for_tx_loop]
    simp only [hall i]
    rw [if_pos (by simpa using hle)]
  | succ f ih =>
    intro i hle
    rw [wait_for_tx_loop]
    simp only [hall i]
    by_cases hto : timeout ≤ i * poll
    · rw [if_pos hto]
    · rw [if_neg hto]
      apply ih (i + 1)
      have : i * poll + (f + 1) * poll = (i + 1) * poll + f * poll := by ring
      omega

theorem wait_loop_timeout_elapsed (oracle : Nat → Option Nat) (timeout poll : Nat) :
    ∀ (fuel i : Nat),
      wait_for_tx_loop oracle timeout poll fuel i = some .queryTimeout →
      ∃ m, i ≤ m ∧ timeout ≤ m * poll := by
  intro fuel
  induction fuel with
  | zero => intro i h; simp [wait_for_tx_loop] at h
  | succ fuel ih =>
    intro i h
    rw [wait_for_tx_loop] at h
    cases horacle : oracle i with
    | some resp => rw [horacle] at h; simp at h
    | none =>
      rw [horacle] at h
      by_cases hto : timeout ≤ i * poll
      · exact ⟨i, le_refl i, hto⟩
      · rw [if_neg hto] at h
        obtain ⟨m, him, hm⟩ := ih (i + 1) h
        exact ⟨m, by omega, hm⟩

/-- C4: the poller returns the query response as soon as a poll finds the
transaction — a hash that becomes visible at poll `k` with
`k * poll_period < timeout` yields the found result; a hash that never becomes
visible yields `QueryTimeout` (with fuel `timeout + 1` sufficing for any
positive poll period); and whenever `QueryTimeout` is raised, the elapsed time
`m * poll_period` at the raise is at least the timeout. -/
theorem C4_wait_for_tx_poller :
    (∀ (oracle : Nat → Option Nat) (timeout poll r k fuel : Nat),
      (∀ j, j < k → oracle j = none) → oracle k = some r →
      k * poll < timeout → k + 1 ≤ fuel →
      wait_for_tx_to_complete oracle timeout poll fuel = some (.found r)) ∧
    (∀ (oracle : Nat → Option Nat) (timeout poll : Nat),
      (∀ j, oracle j = none) → 1 ≤ poll →
      wait_for_tx_to_complete oracle timeout poll (timeout + 1) =
        some .queryTimeout) ∧
    (∀ (oracle : Nat → Option Nat) (timeout poll fuel : Nat),
      wait_for_tx_to_complete oracle timeout poll fuel = some .queryTimeout →
      ∃ m, timeout ≤ m * poll) := by
  refine ⟨?_, ?_, ?_⟩
  · intro oracle timeout poll r k fuel h0 hk hlt hfuel
    exact wait_loop_found_after oracle timeout poll r k 0 fuel
      (fun j hj => by simpa using h0 j hj) (by simpa using hk) (by simpa using hlt)
      hfuel
  · intro oracle timeout poll hall hpoll
    apply wait_loop_timeout_all_none oracle timeout poll hall timeout 0
    have : timeout * 1 ≤ timeout * poll := Nat.mul_le_mul_left timeout hpoll
    omega
  · intro oracle timeout poll fuel h
    obtain ⟨m, -, hm⟩ := wait_loop_timeout_elapsed oracle timeout poll fuel 0 h
    exact ⟨m, hm⟩

/-- C4 witness: a transaction visible at the third poll (k = 2, poll period 10,
timeout 100) is found; one that never appears times out, with the elapsed time
at the raise at least the timeout. -/
theorem C4_witness :
    wait_for_tx_to_complete (fun n => if n = 2 then some 7 else none) 100 10 5 =
      some (.found 7) ∧
    wait_for_tx_to_complete (fun _ => none) 100 10 101 = some .queryTimeout ∧
    (∃ m : Nat, 100 ≤ m * 10) :=
  ⟨C4_wait_for_tx_poller.1 (fun n => if n = 2 then some 7 else none) 100 10 7 2 5
      (by decide) (by decide) (by decide) (by decide),
   C4_wait_for_tx_poller.2.1 (fun _ => none) 100 10 (fun _ => rfl) (by decide),
   C4_wait_for_tx_poller.2.2 (fun _ => none) 100 10 101
     (C4_wait_for_tx_poller.2.1 (fun _ => none) 100 10 (fun _ => rfl) (by decide))⟩

/-- C5: `get_registration_tx` returns, for an available name, a transaction
whose first message purchases the domain (carrying the purchase fee) and whose
second message updates the records; for a taken name owned by the caller, a
transaction with only the record-update message and no fee; and for a taken
name owned by someone else, no transaction at all (no exception). -/
theorem C5_get_registration_tx_cases :
    ∀ (cfg : Config) (env : NameServiceEnv) (name wallet : String)
      (records : List NSRecord) (domain : String) (network : AgentNetwork),
      (is_name_available env name domain = true →
        get_registration_tx cfg env name wallet records domain network =
          some [{ sender := wallet
                  contract := nsContractAddr cfg network
                  msg := .registerDomain (name ++ "." ++ domain)
                  funds := some (toString (env.pricePerSecondAmount * 86400) ++
                    env.pricePerSecondDenom) },
                { sender := wallet
                  contract := nsContractAddr cfg network
                  msg := .updateRecord (name ++ "." ++ domain) records
                  funds := none }]) ∧
      (is_name_available env name domain = false →
        is_owner env name domain wallet = true →
        get_registration_tx cfg env name wallet records domain network =
          some [{ sender := wallet
                  contract := nsContractAddr cfg network
                  msg := .updateRecord (name ++ "." ++ domain) records
                  funds := none }]) ∧
      (is_name_available env name domain = false →
        is_owner env name domain wallet = false →
        get_registration_tx cfg env name wallet records domain network = none) := by
  intro cfg env name wallet records domain network
  refine ⟨fun h1 => ?_, fun h1 h2 => ?_, fun h1 h2 => ?_⟩
  · simp [get_registration_tx, h1]
  · simp [get_registration_tx, h1, h2]
  · simp [get_registration_tx, h1, h2]

/-- C5 witness: the three cases at concrete states — available name, taken
name owned by the caller, taken name owned by someone else. -/
theorem C5_witness :
    get_registration_tx sampleConfig availableNSEnv "alice" "wallet"
        [⟨"x", 1⟩] "agent" .testnet =
      some [{ sender := "wallet"
              contract := "fetchtestns"
              msg := .registerDomain "alice.agent"
              funds := some "259200atestfet" },
            { sender := "wallet"
              contract := "fetchtestns"
              msg := .updateRecord "alice.agent" [⟨"x", 1⟩]
              funds := none }] ∧
    get_registration_tx sampleConfig ownedNSEnv "alice" "wallet"
        [⟨"x", 1⟩] "agent" .testnet =
      some [{ sender := "wallet"
              contract := "fetchtestns"
              msg := .updateRecord "alice.agent" [⟨"x", 1⟩]
              funds := none }] ∧
    get_registration_tx sampleConfig foreignNSEnv "alice" "wallet"
        [⟨"x", 1⟩] "agent" .testnet = none :=
  ⟨by
    have h := (C5_get_registration_tx_cases sampleConfig availableNSEnv "alice"
      "wallet" [⟨"x", 1⟩] "agent" .testnet).1 rfl
    simpa using h,
   by
    have h := (C5_get_registration_tx_cases sampleConfig ownedNSEnv "alice"
      "wallet" [⟨"x", 1⟩] "agent" .testnet).2.1 rfl rfl
    simpa using h,
   (C5_get_registration_tx_cases sampleConfig foreignNSEnv "alice"
      "wallet" [⟨"x", 1⟩] "agent" .testnet).2.2 rfl rfl⟩

/-- C8: whenever the name is available, the domain-purchase message heading the
registration transaction carries funds of exactly
`price_per_second.amount * 86400` in `price_per_second.denom`. -/
theorem C8_purchase_fee_exact :
    ∀ (cfg : Config) (env : NameServiceEnv) (name wallet : String)
      (records : List NSRecord) (domain : String) (network : AgentNetwork),
      is_name_available env name domain = true →
      ∃ (purchase : CosmWasmExecuteMsg NameServicePayload)
        (rest : List (CosmWasmExecuteMsg NameServicePayload)),
        get_registration_tx cfg env name wallet records domain network =
          some (purchase :: rest) ∧
        purchase.msg = .registerDomain (name ++ "." ++ domain) ∧
        purchase.funds = some (toString (env.pricePerSecondAmount * 86400) ++
          env.pricePerSecondDenom) := by
  intro cfg env name wallet records domain network h
  refine ⟨{ sender := wallet
            contract := nsContractAddr cfg network
            msg := .registerDomain (name ++ "." ++ domain)
            funds := some (toString (env.pricePerSecondAmount * 86400) ++
              env.pricePerSecondDenom) },
    [{ sender := wallet
       contract := nsContractAddr cfg network
       msg := .updateRecord (name ++ "." ++ domain) records
       funds := none }], ?_, rfl, rfl⟩
  simp [get_registration_tx, h]

/-- C8 witness: with `price_per_second.amount = 3` and denom `atestfet`, the
purchase fee is exactly `3 * 86400 = 259200` atestfet. -/
theorem C8_witness :
    ∃ (purchase : CosmWasmExecuteMsg NameServicePayload)
      (rest : List (CosmWasmExecuteMsg NameServicePayload)),
      get_registration_tx sampleConfig availableNSEnv "alice" "wallet"
          [⟨"x", 1⟩] "agent" .testnet =
        some (purchase :: rest) ∧
      purchase.msg = .registerDomain "alice.agent" ∧
      purchase.funds = some "259200atestfet" := by
  have h := C8_purchase_fee_exact sampleConfig availableNSEnv "alice" "wallet"
    [⟨"x", 1⟩] "agent" .testnet rfl
  simpa using h

theorem digitChar_ne_underscore : ∀ n < 10, Nat.digitChar n ≠ '_' := by decide

theorem digitChar_inj_lt_ten :
    ∀ a < 10, ∀ b < 10, Nat.digitChar a = Nat.digitChar b → a = b := by decide

theorem toDigitsCore_eq_digits (b : Nat) (hb : 1 < b) :
    ∀ (fuel n : Nat) (l : List Char), n ≠ 0 → n ≤ fuel →
      Nat.toDigitsCore b fuel n l =
        ((Nat.digits b n).map Nat.digitChar).reverse ++ l := by
  intro fuel
  induction fuel with
  | zero => intro n l hn hfuel; omega
  | succ fuel ih =>
    intro n l hn hfuel
    rw [Nat.toDigitsCore, Nat.digits_def' hb (Nat.pos_of_ne_zero hn)]
    by_cases hdiv : n / b = 0
    · simp only [hdiv, if_pos]
      simp
    · have hlt : n / b < n := Nat.div_lt_self (Nat.pos_of_ne_zero hn) hb
      simp only [if_neg hdiv]
      rw [ih (n / b) (Nat.digitChar (n % b) :: l) hdiv (by omega)]
      simp

theorem repr_data_eq_digits (n : Nat) (hn : n ≠ 0) :
    (Nat.repr n).data = ((Nat.digits 10 n).map Nat.digitChar).reverse := by
  rw [Nat.repr, Nat.toDigits,
    toDigitsCore_eq_digits 10 (by norm_num) (n + 1) n [] hn (Nat.le_succ n)]
  simp [List.asString]

theorem underscore_not_mem_repr (n : Nat) : '_' ∉ (Nat.repr n).data := by
  by_cases hn : n = 0
  · subst hn; decide
  · rw [repr_data_eq_digits n hn]
    simp only [List.mem_reverse, List.mem_map, not_exists, not_and]
    intro d hd hcontra
    exact digitChar_ne_underscore d (Nat.digits_lt_base (by norm_num) hd) hcontra

theorem digits_map_digitChar_inj :
    ∀ l1 l2 : List Nat, (∀ d ∈ l1, d < 10) → (∀ d ∈ l2, d < 10) →
      l1.map Nat.digitChar = l2.map Nat.digitChar → l1 = l2 := by
  intro l1
  induction l1 with
  | nil =>
    intro l2 _ _ h
    cases l2 with
    | nil => rfl
    | cons b l2 => simp at h
  | cons a l1 ih =>
    intro l2 h1 h2 h
    cases l2 with
    | nil => simp at h
    | cons b l2 =>
      simp only [List.map_cons, List.cons.injEq] at h
      have ha : a < 10 := h1 a (List.mem_cons_self _ _)
      have hb : b < 10 := h2 b (List.mem_cons_self _ _)
      have hab : a = b := digitChar_inj_lt_ten a ha b hb h.1
      rw [hab, ih l2 (fun d hd => h1 d (List.mem_cons_of_mem _ hd))
        (fun d hd => h2 d (List.mem_cons_of_mem _ hd)) h.2]

theorem repr_eq_zero_repr (n : Nat) (h : Nat.repr n = Nat.repr 0) : n = 0 := by
  by_contra hn
  have hdata : (Nat.repr n).data = ['0'] := by rw [h]; rfl
  rw [repr_data_eq_digits n hn] at hdata
  have hmap : (Nat.digits 10 n).map Nat.digitChar = ['0'] := by
    have := congrArg List.reverse hdata
    simpa using this
  cases hdig : Nat.digits 10 n with
  | nil => rw [hdig] at hmap; simp at hmap
  | cons d ds =>
    rw [hdig] at hmap
    simp only [List.map_cons, List.cons.injEq, List.map_eq_nil_iff] at hmap
    have hd10 : d < 10 := Nat.digits_lt_base (by norm_num) (hdig ▸ List.mem_cons_self d ds)
    have hd0 : d = 0 := digitChar_inj_lt_ten d hd10 0 (by norm_num) (by rw [hmap.1]; rfl)
    have : n = Nat.ofDigits 10 (Nat.digits 10 n) := (Nat.ofDigits_digits 10 n).symm
    rw [hdig, hmap.2, hd0] at this
    simp [Nat.ofDigits] at this
    exact hn this

theorem nat_repr_injective : ∀ m n : Nat, Nat.repr m = Nat.repr n → m = n := by
  intro m n h
  by_cases hm : m = 0
  · subst hm
    exact (repr_eq_zero_repr n h.symm).symm
  · by_cases hn : n = 0
    · subst hn
      exact repr_eq_zero_repr m h
    · have hdata : (Nat.repr m).data = (Nat.repr n).data := by rw [h]
      rw [repr_data_eq_digits m hm, repr_data_eq_digits n hn] at hdata
      have hrev := List.reverse_injective hdata
      have hdig := digits_map_digitChar_inj (Nat.digits 10 m) (Nat.digits 10 n)
        (fun d hd => Nat.digits_lt_base (by norm_num) hd)
        (fun d hd => Nat.digits_lt_base (by norm_num) hd) hrev
      calc m = Nat.ofDigits 10 (Nat.digits 10 m) := (Nat.ofDigits_digits 10 m).symm
        _ = Nat.ofDigits 10 (Nat.digits 10 n) := by rw [hdig]
        _ = n := Nat.ofDigits_digits 10 n

theorem append_underscore_cancel :
    ∀ a1 a2 s1 s2 : List Char, '_' ∉ s1 → '_' ∉ s2 →
      a1 ++ '_' :: s1 = a2 ++ '_' :: s2 → a1 = a2 ∧ s1 = s2 := by
  intro a1
  induction a1 with
  | nil =>
    intro a2 s1 s2 h1 h2 h
    cases a2 with
    | nil => simpa using h
    | cons c a2 =>
      exfalso
      simp only [List.nil_append, List.cons_append, List.cons.injEq] at h
      exact h1 (h.2 ▸ List.mem_append_right a2 (List.mem_cons_self '_' s2))
  | cons c a1 ih =>
    intro a2 s1 s2 h1 h2 h
    cases a2 with
    | nil =>
      exfalso
      simp only [List.cons_append, List.nil_append, List.cons.injEq] at h
      exact h2 (h.2 ▸ List.mem_append_right a1 (List.mem_cons_self '_' s1))
    | cons c' a2 =>
      simp only [List.cons_append, List.cons.injEq] at h
      obtain ⟨hc, hrest⟩ := h
      obtain ⟨ha, hs⟩ := ih a2 s1 s2 h1 h2 hrest
      exact ⟨by rw [hc, ha], hs⟩

theorem recordKey_injective : ∀ r1 r2 : NSRecord, recordKey r1 = recordKey r2 → r1 = r2 := by
  intro r1 r2 h
  unfold recordKey at h
  have hdata := congrArg String.data h
  simp only [String.data_append] at hdata
  have h' : r1.address.data ++ '_' :: (Nat.repr r1.weight).data =
      r2.address.data ++ '_' :: (Nat.repr r2.weight).data := by
    simpa [List.append_assoc] using hdata
  obtain ⟨haddr, hw⟩ := append_underscore_cancel r1.address.data r2.address.data
    (Nat.repr r1.weight).data (Nat.repr r2.weight).data
    (underscore_not_mem_repr r1.weight) (underscore_not_mem_repr r2.weight) h'
  cases r1 with
  | mk a1 w1 =>
    cases r2 with
    | mk a2 w2 =>
      have ha : a1 = a2 := String.ext haddr
      have hww : w1 = w2 := nat_repr_injective w1 w2 (String.ext hw)
      rw [ha, hww]

theorem dictInsert_keys_replace (acc : List (String × NSRecord)) (k : String)
    (v : NSRecord) (h : acc.any (fun p => p.1 == k) = true) :
    (dictInsert acc k v).map Prod.fst = acc.map Prod.fst := by
  unfold dictInsert
  rw [if_pos h, List.map_map]
  apply List.map_congr_left
  intro p _
  by_cases hpk : p.1 == k
  · simp only [Function.comp_apply, if_pos hpk]
    exact (eq_of_beq hpk).symm
  · simp only [Function.comp_apply, if_neg hpk]

theorem dictInsert_keys_append (acc : List (String × NSRecord)) (k : String)
    (v : NSRecord) (h : ¬acc.any (fun p => p.1 == k) = true) :
    (dictInsert acc k v).map Prod.fst = acc.map Prod.fst ++ [k] := by
  unfold dictInsert
  rw [if_neg h]
  simp

theorem dictInsert_keys_sub (acc : List (String × NSRecord)) (k : String)
    (v : NSRecord) (k' : String) (h : k' ∈ acc.map Prod.fst) :
    k' ∈ (dictInsert acc k v).map Prod.fst := by
  by_cases hany : acc.any (fun p => p.1 == k) = true
  · rw [dictInsert_keys_replace acc k v hany]; exact h
  · rw [dictInsert_keys_append acc k v hany]
    exact List.mem_append_left [k] h

theorem dictInsert_key_mem (acc : List (String × NSRecord)) (k : String)
    (v : NSRecord) : k ∈ (dictInsert acc k v).map Prod.fst := by
  by_cases hany : acc.any (fun p => p.1 == k) = true
  · rw [dictInsert_keys_replace acc k v hany]
    obtain ⟨p, hp, hpk⟩ := List.any_eq_true.mp hany
    exact (eq_of_beq hpk) ▸ List.mem_map_of_mem Prod.fst hp
  · rw [dictInsert_keys_append acc k v hany]
    exact List.mem_append_right _ (List.mem_cons_self k [])

theorem dictInsert_consistent (acc : List (String × NSRecord)) (k : String)
    (v : NSRecord) (hkv : recordKey v = k)
    (hacc : ∀ p ∈ acc, recordKey p.2 = p.1) :
    ∀ p ∈ dictInsert acc k v, recordKey p.2 = p.1 := by
  intro p hp
  unfold dictInsert at hp
  by_cases hany : acc.any (fun p => p.1 == k) = true
  · rw [if_pos hany] at hp
    obtain ⟨q, hq, hqp⟩ := List.mem_map.mp hp
    by_cases hqk : q.1 == k
    · rw [if_pos hqk] at hqp
      rw [← hqp]
      exact hkv
    · rw [if_neg hqk] at hqp
      rw [← hqp]
      exact hacc q hq
  · rw [if_neg hany] at hp
    rcases List.mem_append.mp hp with h | h
    · exact hacc p h
    · rw [List.mem_singleton.mp h]
      exact hkv

theorem dictInsert_keys_nodup (acc : List (String × NSRecord)) (k : String)
    (v : NSRecord) (h : (acc.map Prod.fst).Nodup) :
    ((dictInsert acc k v).map Prod.fst).Nodup := by
  by_cases hany : acc.any (fun p => p.1 == k) = true
  · rw [dictInsert_keys_replace acc k v hany]; exact h
  · rw [dictInsert_keys_append acc k v hany]
    have hnotmem : k ∉ acc.map Prod.fst := by
      intro hmem
      obtain ⟨p, hp, hpk⟩ := List.mem_map.mp hmem
      exact hany (List.any_eq_true.mpr ⟨p, hp, by rw [hpk]; exact beq_self_eq_true k⟩)
    simp [List.nodup_append, h, hnotmem]

/-- The fold over `dictInsert` performed by `dedupByKey`. -/
theorem recordFold_inv (recs : List NSRecord) :
    ∀ acc : List (String × NSRecord),
      (∀ p ∈ acc, recordKey p.2 = p.1) → (acc.map Prod.fst).Nodup →
      (∀ p ∈ recs.foldl (fun acc r => dictInsert acc (recordKey r) r) acc,
        recordKey p.2 = p.1) ∧
      ((recs.foldl (fun acc r => dictInsert acc (recordKey r) r) acc).map
        Prod.fst).Nodup := by
  induction recs with
  | nil => intro acc h1 h2; exact ⟨h1, h2⟩
  | cons a recs ih =>
    intro acc h1 h2
    exact ih (dictInsert acc (recordKey a) a)
      (dictInsert_consistent acc (recordKey a) a rfl h1)
      (dictInsert_keys_nodup acc (recordKey a) a h2)

theorem recordFold_keys_mono (recs : List NSRecord) :
    ∀ (acc : List (String × NSRecord)) (k' : String), k' ∈ acc.map Prod.fst →
      k' ∈ (recs.foldl (fun acc r => dictInsert acc (recordKey r) r) acc).map
        Prod.fst := by
  induction recs with
  | nil => intro acc k' h; exact h
  | cons a recs ih =>
    intro acc k' h
    exact ih (dictInsert acc (recordKey a) a) k'
      (dictInsert_keys_sub acc (recordKey a) a k' h)

theorem recordFold_keys_complete (recs : List NSRecord) :
    ∀ (acc : List (String × NSRecord)) (r : NSRecord), r ∈ recs →
      recordKey r ∈
        (recs.foldl (fun acc r => dictInsert acc (recordKey r) r) acc).map
          Prod.fst := by
  induction recs with
  | nil => intro acc r h; cases h
  | cons a recs ih =>
    intro acc r hr
    rcases List.mem_cons.mp hr with rfl | h
    · exact recordFold_keys_mono recs (dictInsert acc (recordKey r) r)
        (recordKey r) (dictInsert_key_mem acc (recordKey r) r)
    · exact ih (dictInsert acc (recordKey a) a) r h

theorem dedupByKey_complete (recs : List NSRecord) (r : NSRecord) (hr : r ∈ recs) :
    r ∈ dedupByKey recs := by
  have hkey := recordFold_keys_complete recs [] r hr
  obtain ⟨p, hp, hpk⟩ := List.mem_map.mp hkey
  have hcons := (recordFold_inv recs [] (by simp) (by simp)).1 p hp
  have : p.2 = r := recordKey_injective p.2 r (by rw [hcons, hpk])
  exact this ▸ List.mem_map_of_mem Prod.snd hp

theorem dedupByKey_nodup (recs : List NSRecord) : (dedupByKey recs).Nodup := by
  obtain ⟨hcons, hnodup⟩ := recordFold_inv recs [] (by simp) (by simp)
  unfold dedupByKey
  apply List.Nodup.of_map recordKey
  have : ((recs.foldl (fun acc r => dictInsert acc (recordKey r) r) []).map
      Prod.snd).map recordKey =
      (recs.foldl (fun acc r => dictInsert acc (recordKey r) r) []).map Prod.fst := by
    rw [List.map_map]
    exact List.map_congr_left fun p hp => hcons p hp
  rw [this]
  exact hnodup

/-- C6: with `overwrite = false` the NameService register operation submits the
merge of previous and new records deduplicated by the `address_weight` key:
every (address, weight) pair of the input is kept, no two submitted records
agree on both address and weight, and the concrete scenario of the claim
yields exactly the 2 records `x_1` and `y_2`. -/
theorem C6_merge_dedup_by_address_weight :
    (∀ previous records : List NSRecord,
      (∀ r ∈ previous ++ records, r ∈ mergedRecords false previous records) ∧
      (mergedRecords false previous records).Pairwise
        (fun r1 r2 => r1.address ≠ r2.address ∨ r1.weight ≠ r2.weight)) ∧
    mergedRecords false [⟨"x", 1⟩] [⟨"x", 1⟩, ⟨"y", 2⟩] = [⟨"x", 1⟩, ⟨"y", 2⟩] ∧
    (mergedRecords false [⟨"x", 1⟩] [⟨"x", 1⟩, ⟨"y", 2⟩]).length = 2 := by
  refine ⟨fun previous records => ⟨?_, ?_⟩, by decide, by decide⟩
  · intro r hr
    simp only [mergedRecords, if_neg (Bool.false_ne_true)]
    exact dedupByKey_complete (previous ++ records) r hr
  · simp only [mergedRecords, if_neg (Bool.false_ne_true)]
    apply List.Pairwise.imp ?_ (dedupByKey_nodup (previous ++ records))
    intro r1 r2 hne
    by_cases ha : r1.address = r2.address
    · right
      intro hw
      exact hne (by cases r1; cases r2; simp_all)
    · left; exact ha

/-- C6 witness: in the claim's scenario the duplicate `x_1` record survives
once and `y_2` is kept, and each input pair is present in the merge. -/
theorem C6_witness :
    (⟨"x", 1⟩ : NSRecord) ∈ mergedRecords false [⟨"x", 1⟩] [⟨"x", 1⟩, ⟨"y", 2⟩] ∧
    (⟨"y", 2⟩ : NSRecord) ∈ mergedRecords false [⟨"x", 1⟩] [⟨"x", 1⟩, ⟨"y", 2⟩] ∧
    (mergedRecords false [⟨"x", 1⟩] [⟨"x", 1⟩, ⟨"y", 2⟩]).Pairwise
      (fun r1 r2 => r1.address ≠ r2.address ∨ r1.weight ≠ r2.weight) :=
  ⟨(C6_merge_dedup_by_address_weight.1 [⟨"x", 1⟩] [⟨"x", 1⟩, ⟨"y", 2⟩]).1
      ⟨"x", 1⟩ (List.mem_append_left _ (List.mem_cons_self _ _)),
   (C6_merge_dedup_by_address_weight.1 [⟨"x", 1⟩] [⟨"x", 1⟩, ⟨"y", 2⟩]).1
      ⟨"y", 2⟩ (List.mem_append_right _
        (List.mem_cons_of_mem _ (List.mem_cons_self _ _))),
   (C6_merge_dedup_by_address_weight.1 [⟨"x", 1⟩] [⟨"x", 1⟩, ⟨"y", 2⟩]).2⟩

end UAgents
